import Mathlib

/-!
Verification of the upload-processing core of `graphql-upload-nextjs`
(`src/index.ts`), shallowly embedded in Lean 4.

Modelling conventions:
* JavaScript numbers are modelled as rationals (`ℚ`); the only arithmetic
  the code performs on them (comparison, division by `1024 * 1024`) is
  exact on the values reachable here.
* The third-party sniffers `fileTypeFromBuffer` (package `file-type`) and
  `isText` (package `istextorbinary`) are external collaborators and are
  passed in as parameters `ftb : List Nat → Option String` (the canonical
  MIME string of a matched magic-byte signature, if any) and
  `istext : List Nat → Bool` (the text/binary heuristic), applied to the
  buffered bytes.
* `JSON.parse` is a JS builtin; a text form field is modelled by the
  outcome of parsing it (`Option Json`, `none` = parse failure).
* Buffered file bytes are `List Nat`; a descriptor's `createReadStream`
  factory is modelled by retaining the underlying buffer (`content`).
* Thrown JS errors are modelled with `Except Thrown`; the `try/catch` of
  `uploadProcess` is the outer `match` converting `.error` into the
  generic `{error: "Error processing upload: ..."}` response.
* The async binding tasks mutate disjoint keys of `operations.variables`;
  the model runs them in dispatch order, which agrees with the code
  whenever the target variable names are distinct (the configuration the
  design requires, and the one the theorems below hypothesise).
-/

/-- Parsed JSON values, the possible outputs of `JSON.parse`. -/
inductive Json where
  | null
  | bool (b : Bool)
  | num (q : ℚ)
  | str (s : String)
  | arr (elems : List Json)
  | obj (fields : List (String × Json))

/-- Model of `interface FormDataFile`: a file part of the multipart form data,
with its client-declared name, byte size and MIME type, plus the buffered
content reachable through `stream()`. -/
structure FormDataFile where
  lastModified : ℤ
  name : String
  size : ℚ
  type : String
  content : List Nat

instance : Inhabited FormDataFile := ⟨⟨0, "", 0, "", []⟩⟩

/-- A value of one multipart form data entry: either a file blob or a
text field (the latter modelled by its `JSON.parse` outcome). -/
inductive FormValue where
  | file (f : FormDataFile)
  | text (parsed : Option Json)

/-- Model of `interface File`: the resolved file descriptor handed to resolvers.
`createReadStream` re-reads the retained buffer, modelled by `content`. -/
structure File where
  encoding : String
  fileName : String
  fileSize : ℚ
  mimeType : String
  content : List Nat
deriving DecidableEq

/-- The settlement state of the `Promise<File>` inside an `Upload`. -/
inductive PromiseState where
  | pending
  | resolved (f : File)
  | rejected
deriving DecidableEq

/-- Model of `class Upload`: the deferred file handle. `promiseState` models the
underlying promise, `file` models the mutable `file?` field. -/
structure Upload where
  promiseState : PromiseState
  file : Option File
deriving DecidableEq

/-- Model of `new Upload()`: pending promise, `file` unset. -/
def Upload.new : Upload :=
  { promiseState := .pending, file := none }

/-- Model of `upload.resolve(file)`: the wrapper unconditionally assigns
`this.file = file`, then calls the promise executor's `resolve`, which is
a no-op once the promise has settled. -/
def Upload.resolve (u : Upload) (f : File) : Upload :=
  { file := some f,
    promiseState :=
      match u.promiseState with
      | .pending => .resolved f
      | st => st }

/-- Model of `upload.reject(reason)`: the promise executor's `reject`, a no-op once
the promise has settled; `this.file` is untouched. -/
def Upload.reject (u : Upload) : Upload :=
  { u with promiseState :=
      match u.promiseState with
      | .pending => .rejected
      | st => st }

/-- Runtime JS values held in `operations.variables`. JS arrays are
represented by their property map (index keys as strings), matching JS
property semantics. A value strictly below the top level of the
variables object is never inspected by the code (it is only passed
through to the engine), so it stays wrapped as opaque parsed JSON
(`json`). `NaN` is not modelled. -/
inductive JSValue where
  | undefined
  | null
  | bool (b : Bool)
  | num (q : ℚ)
  | str (s : String)
  | obj (fields : List (String × JSValue))
  | arr (fields : List (String × JSValue))
  | json (j : Json)
  | upload (u : Upload)

/-- Thrown JS errors reachable in `uploadProcess`, by their message. -/
inductive Thrown where
  | invalidJSONInput
  | invalidFileProperties
  | typeNotAllowed (mime : String) (allowed : List String)
  | typeErrorReadSize
  | typeErrorPath
  | typeErrorAssign
deriving DecidableEq

/-- The `settings` argument of `uploadProcess`. -/
structure Settings where
  allowedTypes : List String
  maxFileSize : ℚ

/-- The JSON bodies `uploadProcess` can return via `NextResponse.json`. -/
inductive UploadResponse where
  | errorSize (maxMB : ℚ)
  | errorProcessing (e : Thrown)
  | single (data errors : JSValue)
  | incremental (results : List JSValue)

/-- The body of an execution-engine result (`server.executeOperation`). -/
inductive EngineBody where
  | single (data errors : JSValue)
  | incremental (initialResult : JSValue) (subsequentResults : List JSValue)
  | other (kind : String)

/-- Whether an engine body has one of the two kinds the code recognises. -/
def EngineBody.isKnown : EngineBody → Bool
  | .other _ => false
  | _ => true

/-- First-occurrence association-list lookup: JS property read on a
property map without duplicate keys. -/
def alistGet {α : Type} : List (String × α) → String → Option α
  | [], _ => none
  | p :: ps, k => if p.1 = k then some p.2 else alistGet ps k

/-- JS property write: replace the first occurrence in place, else append
at the end (insertion-order preservation of JS objects). -/
def alistSet {α : Type} : List (String × α) → String → α → List (String × α)
  | [], k, v => [(k, v)]
  | p :: ps, k, v => if p.1 = k then (k, v) :: ps else p :: alistSet ps k v

/-- Last-occurrence lookup over raw parsed JSON object fields:
`JSON.parse` keeps the last value of a duplicated key. -/
def jsonLookupLast : List (String × Json) → String → Option Json
  | [], _ => none
  | p :: ps, k =>
    match jsonLookupLast ps k with
    | some v => some v
    | none => if p.1 = k then some p.2 else none

/-- Deduplicate keys keeping first occurrences: the key order of a JS
object built by repeated property writes. -/
def keysDedup (l : List String) : List String :=
  l.foldl (fun acc k => if acc.contains k then acc else acc ++ [k]) []

/-- Model of `Object.keys` on a parsed JSON value of JS object type. -/
def jsObjKeys : Json → List String
  | .obj fs => keysDedup (fs.map Prod.fst)
  | .arr xs => (List.range xs.length).map toString
  | _ => []

/-- Property read `j[k]` on a parsed JSON value of JS object type. -/
def jsonGetProp : Json → String → Option Json
  | .obj fs, k => jsonLookupLast fs k
  | .arr xs, k => (xs.enum.find? (fun p => toString p.1 = k)).map Prod.snd
  | _, _ => none

/-- Rebuild a property list by repeated JS property writes from the left:
duplicate keys collapse to the last value at the first position. -/
def dedupFields (fs : List (String × JSValue)) : List (String × JSValue) :=
  fs.foldl (fun acc p => alistSet acc p.1 p.2) []

/-- The runtime JS value of a parsed JSON value. Only the top level is
given property-map structure; nested values stay opaque (`json`),
because the code never reads below the top level of the variables
object. Duplicated keys of a parsed object collapse to the last value at
the first position, as in `JSON.parse`. -/
def jsValueOfJson : Json → JSValue
  | .null => .null
  | .bool b => .bool b
  | .num q => .num q
  | .str s => .str s
  | .arr xs => .arr (xs.enum.map (fun p => (toString p.1, JSValue.json p.2)))
  | .obj fs => .obj (dedupFields (fs.map (fun p => (p.1, JSValue.json p.2))))

/-- The property map of a runtime JS value (`[]` for primitives). -/
def JSValue.fields : JSValue → List (String × JSValue)
  | .obj fs => fs
  | .arr fs => fs
  | _ => []

/-- Property read on a runtime JS value; `undefined` when absent. -/
def jsGetProp (v : JSValue) (k : String) : JSValue :=
  (alistGet v.fields k).getD .undefined

/-- Strict-mode property write `v[k] = x`: succeeds on values of JS
object type, throws `TypeError` on `undefined`, `null` and primitives.
(A `json` wrapper can only be a primitive here: object-typed parsed
values are lifted to `obj`/`arr` before ever being an assignment
target.) -/
def setProp (v : JSValue) (k : String) (x : JSValue) : Except Thrown JSValue :=
  match v with
  | .obj fs => .ok (.obj (alistSet fs k x))
  | .arr fs => .ok (.arr (alistSet fs k x))
  | _ => .error .typeErrorAssign

/-- JS truthiness of a runtime value. -/
def jsTruthy : JSValue → Bool
  | .undefined => false
  | .null => false
  | .bool b => b
  | .num q => decide (q ≠ 0)
  | .str s => decide (s ≠ "")
  | .obj _ => true
  | .arr _ => true
  | .json j =>
    match j with
    | .null => false
    | .bool b => b
    | .num q => decide (q ≠ 0)
    | .str s => decide (s ≠ "")
    | .arr _ => true
    | .obj _ => true
  | .upload _ => true

/-- Whether a runtime value is an `Upload` handle. -/
def isUploadVal : JSValue → Bool
  | .upload _ => true
  | _ => false

/-- Model of `formData.get(k)`: first entry with the given field name, if any. -/
def formGet (entries : List (String × FormValue)) (k : String) : Option FormValue :=
  (entries.find? (fun p => p.1 = k)).map Prod.snd

/-- Model of `extractFiles(formData)`: collect the entries whose value is a `File`
blob into a property map (later entries overwrite earlier ones). -/
def extractFiles (entries : List (String × FormValue)) : List (String × FormDataFile) :=
  entries.foldl
    (fun acc p =>
      match p.2 with
      | .file f => alistSet acc p.1 f
      | .text _ => acc)
    []

/-- Model of `sanitizeAndValidateJSON(input)`: `JSON.parse` the field, then require
`typeof result === 'object' && result !== null` (JS `typeof` is
`'object'` for both JSON objects and JSON arrays); every failure is
rethrown as `Error('Invalid JSON input')`. An absent field (`null`) or a
`File`-valued field coerces to an unparseable string. -/
def sanitizeAndValidateJSON : Option FormValue → Except Thrown Json
  | some (.text (some j)) =>
    match j with
    | .obj fs => .ok (.obj fs)
    | .arr xs => .ok (.arr xs)
    | _ => .error .invalidJSONInput
  | _ => .error .invalidJSONInput

/-- The MIME determination of `processUpload` (lines 132-138): a matched
magic-byte signature wins, else the text heuristic yields `text/plain`,
else the client-declared type is retained. -/
def resolveMime (fileType : Option String) (istext : Bool) (declared : String) : String :=
  match fileType with
  | some m => m
  | none => if istext then "text/plain" else declared

/-- The descriptor `processUpload` resolves an `Upload` with, for a file
part whose bytes sniff as `resolveMime ...`. -/
def descOf (ftb : List Nat → Option String) (istext : List Nat → Bool)
    (f : FormDataFile) : File :=
  { fileSize := f.size
    fileName := f.name
    mimeType := resolveMime (ftb f.content) (istext f.content) f.type
    encoding := "binary"
    content := f.content }

/-- Model of `processUpload(file, variableName, operations, allowedTypes)`:
validate the declared properties (all JS-falsy checks), buffer the
stream, sniff the MIME type, enforce the allow-list, then resolve a fresh
`Upload` with the descriptor and assign it to
`operations.variables[variableName]`. Returns the updated variables map. -/
def processUpload (ftb : List Nat → Option String) (istext : List Nat → Bool)
    (file : FormDataFile) (variableName : String) (vars : JSValue)
    (allowedTypes : List String) : Except Thrown JSValue :=
  if file.name = "" ∨ file.size = 0 ∨ file.type = "" then
    .error .invalidFileProperties
  else
    let mimeType := resolveMime (ftb file.content) (istext file.content) file.type
    if allowedTypes.contains mimeType then
      setProp vars variableName
        (.upload (Upload.resolve Upload.new (descOf ftb istext file)))
    else
      .error (.typeNotAllowed mimeType allowedTypes)

/-- Model of `map[fileKey][0]` followed by `.split('.')`: produce the first path
string of the map entry, or the `TypeError` the same chain of property
accesses raises in JS (indexing `null`, a missing property, a non-string
path, an empty array, ...). -/
def getPathSegment : Json → Except Thrown String
  | .arr (x :: _) =>
    match x with
    | .str s => .ok s
    | _ => .error .typeErrorPath
  | .arr [] => .error .typeErrorPath
  | .str s =>
    match s.data with
    | [] => .error .typeErrorPath
    | c :: _ => .ok (String.mk [c])
  | .obj fs =>
    match jsonLookupLast fs "0" with
    | some (.str s) => .ok s
    | _ => .error .typeErrorPath
  | _ => .error .typeErrorPath

/-- The path segment for a map key: `map[fileKey][0]` with the `TypeError`
of indexing an absent property. -/
def pathSegOf (mapJson : Json) (k : String) : Except Thrown String :=
  match jsonGetProp mapJson k with
  | none => .error .typeErrorPath
  | some v => getPathSegment v

/-- Model of `pathSegment.split('.').slice(-1)[0]`: the last dot-separated
segment, i.e. the characters after the last dot (the whole string when
there is no dot). -/
def lastSegment (s : String) : String :=
  String.mk ((s.data.reverse.takeWhile (fun c => c ≠ '.')).reverse)

/-- Outcome of the synchronous dispatch loop of `uploadProcess`
(lines 182-191): either the early size-error return (carrying the binding
tasks already dispatched for earlier keys), a synchronously thrown error,
or the full list of dispatched binding tasks `(file, variableName)`. -/
inductive BindResult where
  | sizeError (dispatched : List (FormDataFile × String))
  | thrown (e : Thrown)
  | tasks (ts : List (FormDataFile × String))

/-- The dispatch loop over `Object.keys(map)`: look the file up (reading
`.size` of `undefined` throws when the part is missing), return the size
error as soon as a declared size exceeds `maxFileSize`, otherwise derive
the target variable name and dispatch the binding task. -/
def bindLoop (files : List (String × FormDataFile)) (mapJson : Json)
    (maxFileSize : ℚ) : List String → BindResult
  | [] => .tasks []
  | k :: rest =>
    match alistGet files k with
    | none => .thrown .typeErrorReadSize
    | some f =>
      if maxFileSize < f.size then
        .sizeError []
      else
        match pathSegOf mapJson k with
        | .error e => .thrown e
        | .ok seg =>
          match bindLoop files mapJson maxFileSize rest with
          | .tasks ts => .tasks ((f, lastSegment seg) :: ts)
          | .sizeError ds => .sizeError ((f, lastSegment seg) :: ds)
          | .thrown e => .thrown e

/-- Model of `await Promise.all(uploadPromises)`: settle the dispatched binding
tasks. The tasks write disjoint variable keys in the configurations the
design admits, so settling them in dispatch order is faithful; the first
rejection aborts the request. -/
def runTasks (ftb : List Nat → Option String) (istext : List Nat → Bool)
    (allowedTypes : List String) :
    List (FormDataFile × String) → JSValue → Except Thrown JSValue
  | [], vars => .ok vars
  | t :: rest, vars =>
    match processUpload ftb istext t.1 t.2 vars allowedTypes with
    | .error e => .error e
    | .ok vars1 => runTasks ftb istext allowedTypes rest vars1

/-- Lines 197-201: `for (const key in operations.variables) if
(!operations.variables[key]) delete operations.variables[key]`. On a
value of JS object type this deletes exactly the falsy-valued keys; on
any other value the loop body never runs a delete (primitives have no
enumerable falsy-valued own properties), leaving the value unchanged. -/
def cleanupVariables : JSValue → JSValue
  | .obj fs => .obj (fs.filter (fun p => jsTruthy p.2))
  | .arr fs => .arr (fs.filter (fun p => jsTruthy p.2))
  | v => v

/-- Lines 209-220: shape the engine body into the response. A `single`
body becomes `{data, errors}`; an `incremental` body is fully drained
into `{results: [initialResult, ...subsequentResults]}`; any other kind
falls through both branches and the function returns `undefined`. -/
def shapeResponse : EngineBody → Option UploadResponse
  | .single d e => some (.single d e)
  | .incremental i subs => some (.incremental (i :: subs))
  | .other _ => none

/-- The value `operations.query` as passed to the engine (`undefined` when the
parsed operations value has no such property). -/
def opsQuery (opsJson : Json) : JSValue :=
  match jsonGetProp opsJson "query" with
  | none => .undefined
  | some j => jsValueOfJson j

/-- The value `operations.variables` before binding: the runtime view of the
`variables` property of the parsed operations value. -/
def opsVariables (opsJson : Json) : JSValue :=
  match jsonGetProp opsJson "variables" with
  | none => .undefined
  | some j => jsValueOfJson j

/-- The body of the `try` block of `uploadProcess`: extract, validate the
envelope, dispatch and settle the binding tasks, clean the variables,
invoke the engine and shape its result. `.error` is a thrown JS error;
`.ok none` is the undefined fall-through on an unknown result kind. -/
def uploadProcessTry (ftb : List Nat → Option String) (istext : List Nat → Bool)
    (formEntries : List (String × FormValue))
    (engine : JSValue → JSValue → EngineBody) (settings : Settings) :
    Except Thrown (Option UploadResponse) :=
  match sanitizeAndValidateJSON (formGet formEntries "map") with
  | .error e => .error e
  | .ok mapJson =>
    match sanitizeAndValidateJSON (formGet formEntries "operations") with
    | .error e => .error e
    | .ok opsJson =>
      match bindLoop (extractFiles formEntries) mapJson settings.maxFileSize
          (jsObjKeys mapJson) with
      | .sizeError _ => .ok (some (.errorSize (settings.maxFileSize / (1024 * 1024))))
      | .thrown e => .error e
      | .tasks ts =>
        match runTasks ftb istext settings.allowedTypes ts (opsVariables opsJson) with
        | .error e => .error e
        | .ok vars1 =>
          .ok (shapeResponse
            (engine (opsQuery opsJson) (cleanupVariables vars1)))

/-- Model of `uploadProcess(request, context, server, settings)`: the `try` body
with its `catch`, which converts any thrown error into the generic
`{error: "Error processing upload: ..."}` response. `none` models the
code path that produces no response at all. -/
def uploadProcess (ftb : List Nat → Option String) (istext : List Nat → Bool)
    (formEntries : List (String × FormValue))
    (engine : JSValue → JSValue → EngineBody) (settings : Settings) :
    Option UploadResponse :=
  match uploadProcessTry ftb istext formEntries engine settings with
  | .ok r => r
  | .error e => some (.errorProcessing e)

/-- Whether a response outcome is an `{error}` body. -/
def isErrorResp : Option UploadResponse → Bool
  | some (.errorSize _) => true
  | some (.errorProcessing _) => true
  | _ => false

/-- A form field that is absent, unparseable, or parses to a value that
is not of non-null JS object type (the condition under which
`sanitizeAndValidateJSON` throws). -/
def fieldInvalid : Option FormValue → Prop
  | some (.text (some j)) =>
    match j with
    | .obj _ => False
    | .arr _ => False
    | _ => True
  | _ => True

/-- A map key whose dispatch-loop step succeeds: its file part exists
(`F k`), the first path string of its map entry is `S k`, and the
declared size is within the ceiling. -/
def stepWithin (files : List (String × FormDataFile)) (mapJson : Json)
    (maxFileSize : ℚ) (F : String → FormDataFile) (S : String → String)
    (k : String) : Prop :=
  alistGet files k = some (F k) ∧ pathSegOf mapJson k = .ok (S k) ∧
    ¬ maxFileSize < (F k).size

/-- A binding task whose `processUpload` succeeds: declared properties
all non-falsy and the sniffed effective MIME type in the allow-list. -/
def goodTask (ftb : List Nat → Option String) (istext : List Nat → Bool)
    (allowedTypes : List String) (t : FormDataFile × String) : Prop :=
  t.1.name ≠ "" ∧ t.1.size ≠ 0 ∧ t.1.type ≠ "" ∧
    allowedTypes.contains
      (resolveMime (ftb t.1.content) (istext t.1.content) t.1.type) = true

/-! ### Concrete fixtures used by witnesses and counterexamples -/

/-- A policy allowing `text/plain` up to 1024 bytes. -/
def wSettings : Settings :=
  { allowedTypes := ["text/plain"], maxFileSize := 1024 }

/-- The same policy with a 10-byte ceiling. -/
def wSmallSettings : Settings :=
  { allowedTypes := ["text/plain"], maxFileSize := 10 }

/-- A 50-byte text part declared `application/octet-stream`. -/
def wFile50 : FormDataFile :=
  { lastModified := 0, name := "a.txt", size := 50,
    type := "application/octet-stream", content := [104, 105] }

/-- A declared-zero-size part that otherwise satisfies the policy. -/
def wFileZero : FormDataFile :=
  { lastModified := 0, name := "a.txt", size := 0, type := "text/plain",
    content := [] }

/-- The map `{"0": ["variables.file"]}`. -/
def wMapJson : Json := .obj [("0", .arr [.str "variables.file"])]

/-- The operations `{query: "q", variables: {file: null}}`. -/
def wOpsJson : Json :=
  .obj [("query", .str "q"), ("variables", .obj [("file", .null)])]

/-- A minimal valid envelope with no files. -/
def wEnvelope : List (String × FormValue) :=
  [("map", .text (some (.obj []))), ("operations", .text (some (.obj [])))]

/-- An envelope whose `map` field parses as the JSON array `[]`. -/
def wArrayMapForm : List (String × FormValue) :=
  [("map", .text (some (.arr []))), ("operations", .text (some wOpsJson))]

/-- A complete single-file envelope. -/
def wFullForm : List (String × FormValue) :=
  [("operations", .text (some wOpsJson)), ("map", .text (some wMapJson)),
   ("0", .file wFile50)]

/-- The same envelope without the mapped file part. -/
def wMissingForm : List (String × FormValue) :=
  [("operations", .text (some wOpsJson)), ("map", .text (some wMapJson))]

/-- The same envelope with the zero-size part. -/
def wZeroForm : List (String × FormValue) :=
  [("operations", .text (some wOpsJson)), ("map", .text (some wMapJson)),
   ("0", .file wFileZero)]

/-- A first concrete file descriptor. -/
def wDescA : File :=
  { encoding := "binary", fileName := "a", fileSize := 1,
    mimeType := "text/plain", content := [] }

/-- A second, different concrete file descriptor. -/
def wDescB : File :=
  { encoding := "binary", fileName := "b", fileSize := 2,
    mimeType := "image/png", content := [] }

/-! ### Association-list lemmas -/

theorem alistGet_set_self {α : Type} (l : List (String × α)) (k : String) (v : α) :
    alistGet (alistSet l k v) k = some v := by
  induction l with
  | nil => simp [alistSet, alistGet]
  | cons p ps ih =>
    by_cases h : p.1 = k
    · simp [alistSet, h, alistGet]
    · simp [alistSet, h, alistGet, ih]

theorem alistGet_set_other {α : Type} (l : List (String × α)) (k k2 : String) (v : α)
    (h : k2 ≠ k) : alistGet (alistSet l k v) k2 = alistGet l k2 := by
  have hk : ¬(k = k2) := fun hh => h hh.symm
  induction l with
  | nil => simp [alistSet, alistGet, hk]
  | cons p ps ih =>
    by_cases hp : p.1 = k
    · simp [alistSet, hp, alistGet, hk, hp ▸ hk]
    · simp [alistSet, hp, alistGet, ih]

theorem alistGet_mem {α : Type} {l : List (String × α)} {k : String} {v : α}
    (h : alistGet l k = some v) : (k, v) ∈ l := by
  induction l with
  | nil => simp [alistGet] at h
  | cons p ps ih =>
    by_cases hp : p.1 = k
    · simp [alistGet, hp] at h
      have : p = (k, v) := by
        rw [← hp, ← h]
      exact this ▸ List.mem_cons_self p ps
    · simp [alistGet, hp] at h
      exact List.mem_cons_of_mem _ (ih h)

theorem mem_alistGet {α : Type} {l : List (String × α)} {k : String} {v : α}
    (hnd : (l.map Prod.fst).Nodup) (hm : (k, v) ∈ l) : alistGet l k = some v := by
  induction l with
  | nil => simp at hm
  | cons p ps ih =>
    rcases List.mem_cons.mp hm with heq | htl
    · simp [alistGet, ← heq]
    · have hk : k ∈ ps.map Prod.fst := List.mem_map.mpr ⟨(k, v), htl, rfl⟩
      have hp : p.1 ≠ k := by
        intro hpk
        exact (List.nodup_cons.mp hnd).1 (hpk ▸ hk)
      simp [alistGet, hp]
      exact ih (List.nodup_cons.mp hnd).2 htl

theorem alistGet_eq_none {α : Type} {l : List (String × α)} {k : String}
    (h : k ∉ l.map Prod.fst) : alistGet l k = none := by
  induction l with
  | nil => rfl
  | cons p ps ih =>
    have h1 : ¬(p.1 = k) := fun hh => h (by simp [hh])
    have h2 : k ∉ ps.map Prod.fst := fun hh => h (by simp [hh])
    simp [alistGet, h1]
    exact ih h2

theorem alistSet_keys {α : Type} (l : List (String × α)) (k : String) (v : α) :
    (alistSet l k v).map Prod.fst
      = if k ∈ l.map Prod.fst then l.map Prod.fst else l.map Prod.fst ++ [k] := by
  induction l with
  | nil => simp [alistSet]
  | cons p ps ih =>
    by_cases hp : p.1 = k
    · simp [alistSet, hp]
    · have hkp : ¬(k = p.1) := fun hh => hp hh.symm
      by_cases hk : k ∈ ps.map Prod.fst
      · simp [alistSet, hp, ih, hk, hkp]
      · simp [alistSet, hp, ih, hk, hkp]

theorem alistSet_keys_nodup {α : Type} {l : List (String × α)} (k : String) (v : α)
    (hnd : (l.map Prod.fst).Nodup) : ((alistSet l k v).map Prod.fst).Nodup := by
  rw [alistSet_keys]
  by_cases hk : k ∈ l.map Prod.fst
  · simpa [hk] using hnd
  · simp [hk]
    exact List.Nodup.append hnd (List.nodup_singleton k)
      (by simpa [List.disjoint_singleton] using hk)

theorem alistSet_mem {α : Type} {l : List (String × α)} {k : String} {v : α}
    {p : String × α} (h : p ∈ alistSet l k v) : p ∈ l ∨ p.2 = v := by
  induction l with
  | nil =>
    simp [alistSet] at h
    right
    rw [h]
  | cons q qs ih =>
    by_cases hq : q.1 = k
    · simp [alistSet, hq] at h
      rcases h with heq | htl
      · right
        rw [heq]
      · exact Or.inl (List.mem_cons_of_mem _ htl)
    · simp [alistSet, hq] at h
      rcases h with heq | htl
      · exact Or.inl (by simp [heq])
      · rcases ih htl with hm | hv
        · exact Or.inl (List.mem_cons_of_mem _ hm)
        · exact Or.inr hv

theorem filter_keys_nodup {α : Type} {l : List (String × α)} (P : String × α → Bool)
    (hnd : (l.map Prod.fst).Nodup) : ((l.filter P).map Prod.fst).Nodup :=
  List.Nodup.sublist (List.Sublist.map Prod.fst (List.filter_sublist l)) hnd

/-! ### Lemmas on the JSON-to-runtime conversion -/

theorem foldl_set_keys_nodup (fs : List (String × JSValue)) :
    ∀ acc : List (String × JSValue), (acc.map Prod.fst).Nodup →
      (((fs.foldl (fun a p => alistSet a p.1 p.2) acc)).map Prod.fst).Nodup := by
  induction fs with
  | nil => intro acc h; simpa using h
  | cons p ps ih =>
    intro acc h
    exact ih _ (alistSet_keys_nodup p.1 p.2 h)

theorem dedupFields_keys_nodup (fs : List (String × JSValue)) :
    ((dedupFields fs).map Prod.fst).Nodup :=
  foldl_set_keys_nodup fs [] (by simp)

theorem foldl_set_vals (fs : List (String × JSValue)) :
    ∀ (acc : List (String × JSValue)) (p : String × JSValue),
      p ∈ fs.foldl (fun a q => alistSet a q.1 q.2) acc →
      p ∈ acc ∨ ∃ q ∈ fs, p.2 = q.2 := by
  induction fs with
  | nil => intro acc p h; exact Or.inl h
  | cons q qs ih =>
    intro acc p h
    rcases ih _ p h with hacc | ⟨r, hr, hv⟩
    · rcases alistSet_mem hacc with hm | hv
      · exact Or.inl hm
      · exact Or.inr ⟨q, List.mem_cons_self q qs, hv⟩
    · exact Or.inr ⟨r, List.mem_cons_of_mem _ hr, hv⟩

theorem dedupFields_vals {fs : List (String × JSValue)} {p : String × JSValue}
    (h : p ∈ dedupFields fs) : ∃ q ∈ fs, p.2 = q.2 := by
  rcases foldl_set_vals fs [] p h with hacc | hq
  · simp at hacc
  · exact hq

theorem jsValueOfJson_obj_fields {j : Json} {vs : List (String × JSValue)}
    (h : jsValueOfJson j = .obj vs) :
    (vs.map Prod.fst).Nodup ∧ ∀ p ∈ vs, ∀ u : Upload, p.2 ≠ JSValue.upload u := by
  cases j with
  | obj fs =>
    simp [jsValueOfJson] at h
    constructor
    · rw [← h]
      exact dedupFields_keys_nodup _
    · intro p hp u
      have hp2 : p ∈ dedupFields (fs.map (fun q => (q.1, JSValue.json q.2))) := h ▸ hp
      rcases dedupFields_vals hp2 with ⟨q, hq, hv⟩
      rcases List.mem_map.mp hq with ⟨r, _, hr⟩
      rw [hv, ← hr]
      simp
  | null => simp [jsValueOfJson] at h
  | bool b => simp [jsValueOfJson] at h
  | num q => simp [jsValueOfJson] at h
  | str s => simp [jsValueOfJson] at h
  | arr xs => simp [jsValueOfJson] at h

theorem opsVariables_obj {oj : Json} {vs : List (String × JSValue)}
    (h : opsVariables oj = .obj vs) :
    (vs.map Prod.fst).Nodup ∧ ∀ p ∈ vs, ∀ u : Upload, p.2 ≠ JSValue.upload u := by
  unfold opsVariables at h
  cases hj : jsonGetProp oj "variables" with
  | none => rw [hj] at h; simp at h
  | some j =>
    rw [hj] at h
    exact jsValueOfJson_obj_fields h

/-! ### Lemmas on envelope validation -/

theorem sanitize_error_eq {x : Option FormValue} {e : Thrown}
    (h : sanitizeAndValidateJSON x = .error e) : e = .invalidJSONInput := by
  match x with
  | none => simp [sanitizeAndValidateJSON] at h; exact h.symm
  | some (.file _) => simp [sanitizeAndValidateJSON] at h; exact h.symm
  | some (.text none) => simp [sanitizeAndValidateJSON] at h; exact h.symm
  | some (.text (some j)) =>
    cases j <;> simp [sanitizeAndValidateJSON] at h <;> exact h.symm

theorem sanitize_error_of_invalid {x : Option FormValue} (h : fieldInvalid x) :
    sanitizeAndValidateJSON x = .error .invalidJSONInput := by
  match x with
  | none => rfl
  | some (.file _) => rfl
  | some (.text none) => rfl
  | some (.text (some j)) =>
    cases j with
    | obj fs => simp [fieldInvalid] at h
    | arr xs => simp [fieldInvalid] at h
    | null => rfl
    | bool b => rfl
    | num q => rfl
    | str s => rfl

theorem sanitize_ok_not_invalid {x : Option FormValue} {j : Json}
    (h : sanitizeAndValidateJSON x = .ok j) : ¬ fieldInvalid x := by
  intro hinv
  rw [sanitize_error_of_invalid hinv] at h
  exact Except.noConfusion h

/-! ### Lemmas on the dispatch loop -/

theorem bindLoop_tasks_of_within (files : List (String × FormDataFile))
    (mapJson : Json) (maxFileSize : ℚ) (F : String → FormDataFile)
    (S : String → String) :
    ∀ keys : List String,
      (∀ k ∈ keys, stepWithin files mapJson maxFileSize F S k) →
      bindLoop files mapJson maxFileSize keys
        = .tasks (keys.map (fun k => (F k, lastSegment (S k)))) := by
  intro keys
  induction keys with
  | nil => intro _; rfl
  | cons k rest ih =>
    intro h
    rcases h k (List.mem_cons_self k rest) with ⟨hf, hs, hsize⟩
    have hrest := ih (fun k2 hk2 => h k2 (List.mem_cons_of_mem _ hk2))
    simp [bindLoop, hf, hs, hsize, hrest]

theorem bindLoop_sizeError_at (files : List (String × FormDataFile))
    (mapJson : Json) (maxFileSize : ℚ) (F : String → FormDataFile)
    (S : String → String) :
    ∀ (ks1 : List String) (k : String) (ks2 : List String) (f : FormDataFile),
      (∀ k2 ∈ ks1, stepWithin files mapJson maxFileSize F S k2) →
      alistGet files k = some f → maxFileSize < f.size →
      bindLoop files mapJson maxFileSize (ks1 ++ k :: ks2)
        = .sizeError (ks1.map (fun k2 => (F k2, lastSegment (S k2)))) := by
  intro ks1
  induction ks1 with
  | nil =>
    intro k ks2 f _ hf hsize
    simp [bindLoop, hf, hsize]
  | cons k1 rest ih =>
    intro k ks2 f h hf hsize
    rcases h k1 (List.mem_cons_self k1 rest) with ⟨hf1, hs1, hsize1⟩
    have hrest := ih k ks2 f (fun k2 hk2 => h k2 (List.mem_cons_of_mem _ hk2)) hf hsize
    simp [bindLoop, hf1, hs1, hsize1, hrest]

theorem bindLoop_thrown_missing (files : List (String × FormDataFile))
    (mapJson : Json) (maxFileSize : ℚ) (F : String → FormDataFile)
    (S : String → String) :
    ∀ (ks1 : List String) (k : String) (ks2 : List String),
      (∀ k2 ∈ ks1, stepWithin files mapJson maxFileSize F S k2) →
      alistGet files k = none →
      bindLoop files mapJson maxFileSize (ks1 ++ k :: ks2)
        = .thrown .typeErrorReadSize := by
  intro ks1
  induction ks1 with
  | nil =>
    intro k ks2 _ hf
    simp [bindLoop, hf]
  | cons k1 rest ih =>
    intro k ks2 h hf
    rcases h k1 (List.mem_cons_self k1 rest) with ⟨hf1, hs1, hsize1⟩
    have hrest := ih k ks2 (fun k2 hk2 => h k2 (List.mem_cons_of_mem _ hk2)) hf
    simp [bindLoop, hf1, hs1, hsize1, hrest]

theorem bindLoop_tasks_mem (files : List (String × FormDataFile))
    (mapJson : Json) (maxFileSize : ℚ) :
    ∀ (keys : List String) (ts : List (FormDataFile × String)),
      bindLoop files mapJson maxFileSize keys = .tasks ts →
      ∀ k ∈ keys, ∀ f, alistGet files k = some f → ∃ n, (f, n) ∈ ts := by
  intro keys
  induction keys with
  | nil =>
    intro ts _ k hk
    simp at hk
  | cons k0 rest ih =>
    intro ts hb k hk f hf
    cases hf0 : alistGet files k0 with
    | none => simp [bindLoop, hf0] at hb
    | some f0 =>
      by_cases hsize : maxFileSize < f0.size
      · simp [bindLoop, hf0, hsize] at hb
      · cases hseg : pathSegOf mapJson k0 with
        | error e => simp [bindLoop, hf0, hsize, hseg] at hb
        | ok seg =>
          cases hrec : bindLoop files mapJson maxFileSize rest with
          | sizeError ds => simp [bindLoop, hf0, hsize, hseg, hrec] at hb
          | thrown e => simp [bindLoop, hf0, hsize, hseg, hrec] at hb
          | tasks ts0 =>
            simp [bindLoop, hf0, hsize, hseg, hrec] at hb
            rcases List.mem_cons.mp hk with hk0 | hkrest
            · refine ⟨lastSegment seg, ?_⟩
              rw [← hb]
              have : f = f0 := by
                rw [hk0] at hf
                rw [hf0] at hf
                exact ((Option.some.injEq _ _).mp hf).symm
              rw [this]
              exact List.mem_cons_self _ _
            · rcases ih ts0 hrec k hkrest f hf with ⟨n, hn⟩
              exact ⟨n, by rw [← hb]; exact List.mem_cons_of_mem _ hn⟩

/-! ### Lemmas on the binding tasks -/

theorem processUpload_ok (ftb : List Nat → Option String)
    (istext : List Nat → Bool) (allowed : List String) (f : FormDataFile)
    (n : String) (fs : List (String × JSValue))
    (h1 : f.name ≠ "") (h2 : f.size ≠ 0) (h3 : f.type ≠ "")
    (h4 : allowed.contains
      (resolveMime (ftb f.content) (istext f.content) f.type) = true) :
    processUpload ftb istext f n (.obj fs) allowed
      = .ok (.obj (alistSet fs n
          (.upload (Upload.resolve Upload.new (descOf ftb istext f))))) := by
  have h4m : resolveMime (ftb f.content) (istext f.content) f.type ∈ allowed := by
    simpa using h4
  simp [processUpload, h1, h2, h3, h4m, setProp]

theorem processUpload_bad (ftb : List Nat → Option String)
    (istext : List Nat → Bool) (allowed : List String) (f : FormDataFile)
    (n : String) (vars : JSValue)
    (h : f.name = "" ∨ f.size = 0 ∨ f.type = "") :
    processUpload ftb istext f n vars allowed = .error .invalidFileProperties := by
  simp [processUpload, h]

theorem runTasks_error_of_bad (ftb : List Nat → Option String)
    (istext : List Nat → Bool) (allowed : List String) :
    ∀ (ts : List (FormDataFile × String)) (vars : JSValue) (f : FormDataFile),
      (∃ n, (f, n) ∈ ts) → (f.name = "" ∨ f.size = 0 ∨ f.type = "") →
      ∃ e, runTasks ftb istext allowed ts vars = .error e := by
  intro ts
  induction ts with
  | nil =>
    intro vars f hmem _
    rcases hmem with ⟨n, hn⟩
    simp at hn
  | cons t rest ih =>
    intro vars f hmem hbad
    cases hpu : processUpload ftb istext t.1 t.2 vars allowed with
    | error e => exact ⟨e, by simp [runTasks, hpu]⟩
    | ok vars1 =>
      rcases hmem with ⟨n, hn⟩
      rcases List.mem_cons.mp hn with heq | htl
      · exfalso
        have ht1 : t.1 = f := by rw [← heq]
        rw [processUpload_bad ftb istext allowed t.1 t.2 vars (ht1 ▸ hbad)] at hpu
        exact Except.noConfusion hpu
      · rcases ih vars1 f ⟨n, htl⟩ hbad with ⟨e, he⟩
        exact ⟨e, by simp [runTasks, hpu, he]⟩

theorem runTasks_good (ftb : List Nat → Option String)
    (istext : List Nat → Bool) (allowed : List String) :
    ∀ (ts : List (FormDataFile × String)) (fs : List (String × JSValue)),
      (∀ t ∈ ts, goodTask ftb istext allowed t) →
      ((ts.map Prod.snd).Nodup) → ((fs.map Prod.fst).Nodup) →
      ∃ fs2, runTasks ftb istext allowed ts (.obj fs) = .ok (.obj fs2)
        ∧ ((fs2.map Prod.fst).Nodup)
        ∧ (∀ n, n ∉ ts.map Prod.snd → alistGet fs2 n = alistGet fs n)
        ∧ (∀ t ∈ ts, alistGet fs2 t.2
            = some (.upload (Upload.resolve Upload.new (descOf ftb istext t.1)))) := by
  intro ts
  induction ts with
  | nil =>
    intro fs _ _ hnd
    exact ⟨fs, rfl, hnd, fun n _ => rfl, fun t ht => absurd ht (List.not_mem_nil t)⟩
  | cons t rest ih =>
    intro fs hgood hnames hnd
    rcases hgood t (List.mem_cons_self t rest) with ⟨h1, h2, h3, h4⟩
    have hpu := processUpload_ok ftb istext allowed t.1 t.2 fs h1 h2 h3 h4
    set up := JSValue.upload (Upload.resolve Upload.new (descOf ftb istext t.1)) with hup
    have hndset : (((alistSet fs t.2 up).map Prod.fst)).Nodup :=
      alistSet_keys_nodup t.2 up hnd
    have hnames2 : ((rest.map Prod.snd)).Nodup := (List.nodup_cons.mp (by simpa using hnames)).2
    have hnotin : t.2 ∉ rest.map Prod.snd := (List.nodup_cons.mp (by simpa using hnames)).1
    rcases ih (alistSet fs t.2 up)
        (fun t2 ht2 => hgood t2 (List.mem_cons_of_mem _ ht2)) hnames2 hndset with
      ⟨fs2, hrun, hnd2, huntouched, hbound⟩
    refine ⟨fs2, ?_, hnd2, ?_, ?_⟩
    · simp [runTasks, hpu, hrun]
    · intro n hn
      have hn1 : n ≠ t.2 := by
        intro hh
        exact hn (by simp [hh])
      have hn2 : n ∉ rest.map Prod.snd := by
        intro hh
        exact hn (by simp [hh])
      rw [huntouched n hn2]
      exact alistGet_set_other fs t.2 n up hn1
    · intro t2 ht2
      rcases List.mem_cons.mp ht2 with heq | htl
      · rw [heq]
        rw [huntouched t.2 hnotin]
        rw [alistGet_set_self fs t.2 up]
      · exact hbound t2 htl

/-! ### Claim theorems -/

/-- C4: for every processed file, the effective MIME type follows the
priority order of `processUpload`: a matched magic-byte signature's
canonical type wins; otherwise `text/plain` when the text/binary
heuristic classifies the buffer as text; otherwise the client-declared
`file.type`. In particular, for any buffer with a known binary signature
the result equals the signature's canonical type regardless of the
declared type, and the descriptor built by `processUpload` records
exactly this effective type. -/
theorem mime_priority_order (ftb : List Nat → Option String)
    (istext : List Nat → Bool) (buffer : List Nat) (declared : String) :
    (∀ t, ftb buffer = some t →
      resolveMime (ftb buffer) (istext buffer) declared = t)
    ∧ (ftb buffer = none → istext buffer = true →
      resolveMime (ftb buffer) (istext buffer) declared = "text/plain")
    ∧ (ftb buffer = none → istext buffer = false →
      resolveMime (ftb buffer) (istext buffer) declared = declared)
    ∧ (∀ f : FormDataFile, (descOf ftb istext f).mimeType
        = resolveMime (ftb f.content) (istext f.content) f.type) := by
  refine ⟨?_, ?_, ?_, fun f => rfl⟩
  · intro t ht
    simp [resolveMime, ht]
  · intro hn hi
    simp [resolveMime, hn, hi]
  · intro hn hi
    simp [resolveMime, hn, hi]

/-- Witness for C4: a PNG-signature buffer declared as
`application/octet-stream` resolves to `image/png`. -/
theorem mime_priority_order_witness :
    resolveMime ((fun _ => some "image/png") ([] : List Nat))
        ((fun _ => false) ([] : List Nat)) "application/octet-stream"
      = "image/png" :=
  (mime_priority_order (fun _ => some "image/png") (fun _ => false) []
    "application/octet-stream").1 "image/png" rfl

/-- C9 counterexample: the claim says a later `resolve` call with a
different descriptor does not change the descriptor observable through
the handle's `file` field; but `Upload.resolve` unconditionally
overwrites `this.file`, so after `resolve(wDescA); resolve(wDescB)` the
`file` field holds `wDescB` while the promise still holds `wDescA`. -/
theorem upload_second_resolve_overwrites_file :
    (Upload.resolve (Upload.resolve Upload.new wDescA) wDescB).file = some wDescB
    ∧ (Upload.resolve (Upload.resolve Upload.new wDescA) wDescB).promiseState
        = .resolved wDescA
    ∧ wDescB ≠ wDescA := by
  refine ⟨rfl, rfl, ?_⟩
  intro h
  exact absurd (congrArg File.fileName h) (by decide)

/-- C9 (amended): first resolution wins for the promise: once the handle
has resolved to a descriptor, a later `resolve` with a different
descriptor or a `reject` leaves the promise's descriptor unchanged; the
mutable `file` field, however, is overwritten to the latest `resolve`
argument. -/
theorem upload_first_resolution_wins_promise (u : Upload) (d d2 : File)
    (h : u.promiseState = .resolved d) :
    (Upload.resolve u d2).promiseState = .resolved d
    ∧ (Upload.reject u).promiseState = .resolved d
    ∧ (Upload.resolve u d2).file = some d2 := by
  refine ⟨?_, ?_, rfl⟩
  · simp [Upload.resolve, h]
  · simp [Upload.reject, h]

/-- Witness for C9 (amended) at a concrete resolved handle. -/
theorem upload_first_resolution_wins_promise_witness :
    (Upload.resolve (Upload.resolve Upload.new wDescA) wDescB).promiseState
        = .resolved wDescA
    ∧ (Upload.reject (Upload.resolve Upload.new wDescA)).promiseState
        = .resolved wDescA
    ∧ (Upload.resolve (Upload.resolve Upload.new wDescA) wDescB).file = some wDescB :=
  upload_first_resolution_wins_promise (Upload.resolve Upload.new wDescA)
    wDescA wDescB rfl

/-- C7: the cleaning pass (`for key in variables; if falsy delete`)
deletes exactly the falsy-valued keys of the variables object: every
remaining key holds a truthy value, every truthy-valued key (with its
value, including every bound `Upload` handle, which is always truthy) is
preserved, and nothing else is added. -/
theorem cleanup_deletes_exactly_falsy (fs : List (String × JSValue))
    (k : String) (v : JSValue) :
    cleanupVariables (.obj fs) = .obj (fs.filter (fun p => jsTruthy p.2))
    ∧ ((k, v) ∈ (cleanupVariables (.obj fs)).fields →
        jsTruthy v = true ∧ (k, v) ∈ fs)
    ∧ ((k, v) ∈ fs → jsTruthy v = true →
        (k, v) ∈ (cleanupVariables (.obj fs)).fields)
    ∧ (∀ u : Upload, jsTruthy (.upload u) = true) := by
  refine ⟨rfl, ?_, ?_, fun u => rfl⟩
  · intro h
    have h2 : (k, v) ∈ fs ∧ jsTruthy v = true := by
      simpa [cleanupVariables, JSValue.fields] using h
    exact ⟨h2.2, h2.1⟩
  · intro hm ht
    simp [cleanupVariables, JSValue.fields, List.mem_filter]
    exact ⟨hm, ht⟩

/-- Witness for C7: on `{a: 0, b: <handle>, c: ""}` the cleaning keeps
exactly the handle. -/
theorem cleanup_deletes_exactly_falsy_witness :
    ("b", JSValue.upload Upload.new)
      ∈ (cleanupVariables (.obj [("a", .num 0), ("b", .upload Upload.new),
          ("c", .str "")])).fields :=
  (cleanup_deletes_exactly_falsy
      [("a", .num 0), ("b", .upload Upload.new), ("c", .str "")]
      "b" (.upload Upload.new)).2.2.1 (by simp) rfl

/-- C8: when the pipeline reaches the engine, a `single` engine body
round-trips verbatim into `{data, errors}` and an `incremental` body is
fully drained into one `{results}` response whose first element is the
initial result followed by every subsequent result in emission order. -/
theorem response_shaping (ftb : List Nat → Option String)
    (istext : List Nat → Bool) (fd : List (String × FormValue))
    (settings : Settings) (mapJson opsJson : Json)
    (ts : List (FormDataFile × String)) (vars1 : JSValue)
    (hm : sanitizeAndValidateJSON (formGet fd "map") = .ok mapJson)
    (ho : sanitizeAndValidateJSON (formGet fd "operations") = .ok opsJson)
    (hb : bindLoop (extractFiles fd) mapJson settings.maxFileSize
        (jsObjKeys mapJson) = .tasks ts)
    (hr : runTasks ftb istext settings.allowedTypes ts (opsVariables opsJson)
        = .ok vars1) :
    ∀ engine : JSValue → JSValue → EngineBody,
      (∀ d e, engine (opsQuery opsJson) (cleanupVariables vars1) = .single d e →
        uploadProcess ftb istext fd engine settings = some (.single d e))
      ∧ (∀ i subs,
          engine (opsQuery opsJson) (cleanupVariables vars1) = .incremental i subs →
          uploadProcess ftb istext fd engine settings
            = some (.incremental (i :: subs))) := by
  intro engine
  constructor
  · intro d e he
    simp [uploadProcess, uploadProcessTry, hm, ho, hb, hr, he, shapeResponse]
  · intro i subs he
    simp [uploadProcess, uploadProcessTry, hm, ho, hb, hr, he, shapeResponse]

/-- Witness for C8: a trivial envelope with an incremental engine body
drains into one ordered `{results}` response. -/
theorem response_shaping_witness :
    uploadProcess (fun _ => none) (fun _ => false) wEnvelope
        (fun _ _ => .incremental (.str "first") [.str "second", .str "third"])
        wSettings
      = some (.incremental [.str "first", .str "second", .str "third"]) :=
  ((response_shaping (fun _ => none) (fun _ => false) wEnvelope wSettings
      (.obj []) (.obj []) [] .undefined rfl rfl rfl rfl
      (fun _ _ => .incremental (.str "first") [.str "second", .str "third"])).2
    (.str "first") [.str "second", .str "third"] rfl)

/-- C1 counterexample: the claim says `uploadProcess` always returns a
JSON response object, including when the engine body kind is neither
`single` nor `incremental`; but on such a kind both branches of the
response shaping are skipped and the function returns `undefined` — no
response at all. -/
theorem no_response_on_unknown_kind :
    uploadProcess (fun _ => none) (fun _ => false) wEnvelope
      (fun _ _ => .other "weird") wSettings = none := by
  rfl

/-- C1 (amended): no exception escapes `uploadProcess` — every thrown
error is converted by the `catch` into an `{error}` response — and a
response object is always produced provided the engine body kind is
`single` or `incremental`; when the kind is neither, the function
produces no response (returns `undefined`). -/
theorem response_always_produced_on_known_kinds
    (ftb : List Nat → Option String) (istext : List Nat → Bool)
    (fd : List (String × FormValue)) (engine : JSValue → JSValue → EngineBody)
    (settings : Settings) (hk : ∀ q v, (engine q v).isKnown = true) :
    ∃ r, uploadProcess ftb istext fd engine settings = some r := by
  cases hm : sanitizeAndValidateJSON (formGet fd "map") with
  | error e => exact ⟨.errorProcessing e, by simp [uploadProcess, uploadProcessTry, hm]⟩
  | ok mapJson =>
    cases ho : sanitizeAndValidateJSON (formGet fd "operations") with
    | error e =>
      exact ⟨.errorProcessing e, by simp [uploadProcess, uploadProcessTry, hm, ho]⟩
    | ok opsJson =>
      cases hb : bindLoop (extractFiles fd) mapJson settings.maxFileSize
          (jsObjKeys mapJson) with
      | sizeError ds =>
        exact ⟨.errorSize (settings.maxFileSize / (1024 * 1024)),
          by simp [uploadProcess, uploadProcessTry, hm, ho, hb]⟩
      | thrown e =>
        exact ⟨.errorProcessing e, by simp [uploadProcess, uploadProcessTry, hm, ho, hb]⟩
      | tasks ts =>
        cases hr : runTasks ftb istext settings.allowedTypes ts
            (opsVariables opsJson) with
        | error e =>
          exact ⟨.errorProcessing e,
            by simp [uploadProcess, uploadProcessTry, hm, ho, hb, hr]⟩
        | ok vars1 =>
          cases he : engine (opsQuery opsJson) (cleanupVariables vars1) with
          | single d er =>
            exact ⟨.single d er,
              by simp [uploadProcess, uploadProcessTry, hm, ho, hb, hr, he, shapeResponse]⟩
          | incremental i subs =>
            exact ⟨.incremental (i :: subs),
              by simp [uploadProcess, uploadProcessTry, hm, ho, hb, hr, he, shapeResponse]⟩
          | other s =>
            exfalso
            have hkk := hk (opsQuery opsJson) (cleanupVariables vars1)
            rw [he] at hkk
            simp [EngineBody.isKnown] at hkk

/-- Witness for C1 (amended): a concrete request with a single-kind
engine produces a response. -/
theorem response_always_produced_witness :
    ∃ r, uploadProcess (fun _ => none) (fun _ => false) wEnvelope
      (fun _ _ => .single .null .null) wSettings = some r :=
  response_always_produced_on_known_kinds (fun _ => none) (fun _ => false)
    wEnvelope (fun _ _ => .single .null .null) wSettings (fun _ _ => rfl)

/-- C3 counterexample: the claim says a `map` field that does not parse
as a non-null JSON object yields an error response with no engine
invocation; but `sanitizeAndValidateJSON` only checks JS
`typeof === 'object'`, which a JSON array also satisfies, so a `map`
field parsing as `[]` is accepted: the result is the engine's response
(shown for two different engines, so the engine is really invoked), not
an error response. -/
theorem array_map_not_rejected :
    uploadProcess (fun _ => none) (fun _ => false) wArrayMapForm
        (fun _ _ => .single (.str "ran") .undefined) wSettings
      = some (.single (.str "ran") .undefined)
    ∧ uploadProcess (fun _ => none) (fun _ => false) wArrayMapForm
        (fun _ _ => .single (.str "ran2") .undefined) wSettings
      = some (.single (.str "ran2") .undefined)
    ∧ isErrorResp (uploadProcess (fun _ => none) (fun _ => false) wArrayMapForm
        (fun _ _ => .single (.str "ran") .undefined) wSettings) = false := by
  exact ⟨rfl, rfl, rfl⟩

/-- C3 (amended): if the `map` field or the `operations` field is
absent, unparseable, or parses to a value that is not of non-null JS
object type (i.e. neither a JSON object nor a JSON array), then
`uploadProcess` returns the `Invalid JSON input` error response — and it
does so uniformly in the sniffers, the file contents and the engine, so
no file bytes are read, no binding task runs and the engine is never
invoked. -/
theorem malformed_envelope_fail_fast (fd : List (String × FormValue))
    (h : fieldInvalid (formGet fd "map") ∨ fieldInvalid (formGet fd "operations")) :
    ∀ (ftb : List Nat → Option String) (istext : List Nat → Bool)
      (engine : JSValue → JSValue → EngineBody) (settings : Settings),
      uploadProcess ftb istext fd engine settings
        = some (.errorProcessing .invalidJSONInput) := by
  intro ftb istext engine settings
  rcases h with hmap | hops
  · simp [uploadProcess, uploadProcessTry, sanitize_error_of_invalid hmap]
  · cases hm : sanitizeAndValidateJSON (formGet fd "map") with
    | error e =>
      have he : e = .invalidJSONInput := sanitize_error_eq hm
      subst he
      simp [uploadProcess, uploadProcessTry, hm]
    | ok mapJson =>
      simp [uploadProcess, uploadProcessTry, hm, sanitize_error_of_invalid hops]

/-- Witness for C3 (amended): a request with no `map` field fails with
the `Invalid JSON input` error response. -/
theorem malformed_envelope_fail_fast_witness :
    uploadProcess (fun _ => none) (fun _ => false)
        [("operations", .text (some (.obj [])))]
        (fun _ _ => .single .null .null) wSettings
      = some (.errorProcessing .invalidJSONInput) :=
  malformed_envelope_fail_fast [("operations", .text (some (.obj [])))]
    (Or.inl (by trivial)) (fun _ => none) (fun _ => false)
    (fun _ _ => .single .null .null) wSettings

/-- C2: when the dispatch loop, walking `Object.keys(map)` in order,
reaches a key whose looked-up file has declared size strictly above
`maxFileSize` (all earlier keys having dispatched normally),
`uploadProcess` returns — for every engine and every sniffer, so the
engine is never invoked and no file bytes are sniffed — the error
response whose message carries `maxFileSize / (1024 * 1024)` megabytes;
and the dispatched binding tasks are exactly those of the strictly
earlier keys, so no task is dispatched for the oversized file or for any
later map key. -/
theorem size_limit_short_circuit (fd : List (String × FormValue))
    (settings : Settings) (mapJson opsJson : Json)
    (F : String → FormDataFile) (S : String → String)
    (ks1 ks2 : List String) (k : String) (f : FormDataFile)
    (hm : sanitizeAndValidateJSON (formGet fd "map") = .ok mapJson)
    (ho : sanitizeAndValidateJSON (formGet fd "operations") = .ok opsJson)
    (hkeys : jsObjKeys mapJson = ks1 ++ k :: ks2)
    (hpre : ∀ k2 ∈ ks1,
      stepWithin (extractFiles fd) mapJson settings.maxFileSize F S k2)
    (hf : alistGet (extractFiles fd) k = some f)
    (hsize : settings.maxFileSize < f.size) :
    (∀ (ftb : List Nat → Option String) (istext : List Nat → Bool)
        (engine : JSValue → JSValue → EngineBody),
      uploadProcess ftb istext fd engine settings
        = some (.errorSize (settings.maxFileSize / (1024 * 1024))))
    ∧ bindLoop (extractFiles fd) mapJson settings.maxFileSize (jsObjKeys mapJson)
        = .sizeError (ks1.map (fun k2 => (F k2, lastSegment (S k2)))) := by
  have hb : bindLoop (extractFiles fd) mapJson settings.maxFileSize
      (jsObjKeys mapJson)
      = .sizeError (ks1.map (fun k2 => (F k2, lastSegment (S k2)))) := by
    rw [hkeys]
    exact bindLoop_sizeError_at (extractFiles fd) mapJson settings.maxFileSize
      F S ks1 k ks2 f hpre hf hsize
  refine ⟨?_, hb⟩
  intro ftb istext engine
  simp [uploadProcess, uploadProcessTry, hm, ho, hb]

/-- Witness for C2: the 50-byte file against a 10-byte ceiling yields
the size-error response reporting `10 / (1024 * 1024)` megabytes. -/
theorem size_limit_short_circuit_witness :
    uploadProcess (fun _ => none) (fun _ => true) wFullForm
        (fun _ v => .single v .undefined) wSmallSettings
      = some (.errorSize ((10 : ℚ) / (1024 * 1024))) :=
  (size_limit_short_circuit wFullForm wSmallSettings wMapJson wOpsJson
      (fun _ => default) (fun _ => "") [] [] "0" wFile50 rfl rfl rfl
      (fun k2 hk2 => absurd hk2 (List.not_mem_nil k2)) rfl
      (by norm_num [wSmallSettings, wFile50])).1
    (fun _ => none) (fun _ => true) (fun _ v => .single v .undefined)

/-- C5: when the dispatch loop reaches a map key for which no file part
was uploaded (all earlier keys having dispatched normally), reading
`.size` of `undefined` throws, the `catch` converts it into an error
response, and — the response being the same for every engine and every
sniffer — the engine is never invoked. -/
theorem missing_file_error (fd : List (String × FormValue))
    (settings : Settings) (mapJson opsJson : Json)
    (F : String → FormDataFile) (S : String → String)
    (ks1 ks2 : List String) (k : String)
    (hm : sanitizeAndValidateJSON (formGet fd "map") = .ok mapJson)
    (ho : sanitizeAndValidateJSON (formGet fd "operations") = .ok opsJson)
    (hkeys : jsObjKeys mapJson = ks1 ++ k :: ks2)
    (hpre : ∀ k2 ∈ ks1,
      stepWithin (extractFiles fd) mapJson settings.maxFileSize F S k2)
    (hnone : alistGet (extractFiles fd) k = none) :
    ∀ (ftb : List Nat → Option String) (istext : List Nat → Bool)
      (engine : JSValue → JSValue → EngineBody),
      uploadProcess ftb istext fd engine settings
        = some (.errorProcessing .typeErrorReadSize) := by
  have hb : bindLoop (extractFiles fd) mapJson settings.maxFileSize
      (jsObjKeys mapJson) = .thrown .typeErrorReadSize := by
    rw [hkeys]
    exact bindLoop_thrown_missing (extractFiles fd) mapJson settings.maxFileSize
      F S ks1 k ks2 hpre hnone
  intro ftb istext engine
  simp [uploadProcess, uploadProcessTry, hm, ho, hb]

/-- Witness for C5: the mapped key `"0"` has no uploaded part, so the
request fails with the generic processing error response. -/
theorem missing_file_error_witness :
    uploadProcess (fun _ => none) (fun _ => true) wMissingForm
        (fun _ v => .single v .undefined) wSettings
      = some (.errorProcessing .typeErrorReadSize) :=
  missing_file_error wMissingForm wSettings wMapJson wOpsJson
    (fun _ => default) (fun _ => "") [] [] "0" rfl rfl rfl
    (fun k2 hk2 => absurd hk2 (List.not_mem_nil k2)) rfl
    (fun _ => none) (fun _ => true) (fun _ v => .single v .undefined)

/-- C10: a mapped file whose declared name is empty, whose declared size
is `0`, or whose declared type is empty makes `processUpload` throw
`Invalid file properties`; consequently the whole request fails with an
error response that does not depend on the engine (so the engine is
never invoked) — in particular a zero-byte upload is always rejected,
even when it satisfies the size and type policy. -/
theorem invalid_file_properties_reject (fd : List (String × FormValue))
    (settings : Settings) (mapJson opsJson : Json) (k : String)
    (f : FormDataFile) (ftb : List Nat → Option String)
    (istext : List Nat → Bool)
    (hm : sanitizeAndValidateJSON (formGet fd "map") = .ok mapJson)
    (ho : sanitizeAndValidateJSON (formGet fd "operations") = .ok opsJson)
    (hk : k ∈ jsObjKeys mapJson)
    (hf : alistGet (extractFiles fd) k = some f)
    (hbad : f.name = "" ∨ f.size = 0 ∨ f.type = "") :
    (∀ n vars, processUpload ftb istext f n vars settings.allowedTypes
      = .error .invalidFileProperties)
    ∧ (∀ engine : JSValue → JSValue → EngineBody,
        isErrorResp (uploadProcess ftb istext fd engine settings) = true)
    ∧ (∀ engine engine2 : JSValue → JSValue → EngineBody,
        uploadProcess ftb istext fd engine settings
          = uploadProcess ftb istext fd engine2 settings) := by
  refine ⟨fun n vars => processUpload_bad ftb istext settings.allowedTypes f n vars hbad, ?_⟩
  cases hb : bindLoop (extractFiles fd) mapJson settings.maxFileSize
      (jsObjKeys mapJson) with
  | sizeError ds =>
    constructor
    · intro engine
      simp [uploadProcess, uploadProcessTry, hm, ho, hb, isErrorResp]
    · intro e1 e2
      simp [uploadProcess, uploadProcessTry, hm, ho, hb]
  | thrown e =>
    constructor
    · intro engine
      simp [uploadProcess, uploadProcessTry, hm, ho, hb, isErrorResp]
    · intro e1 e2
      simp [uploadProcess, uploadProcessTry, hm, ho, hb]
  | tasks ts =>
    rcases bindLoop_tasks_mem (extractFiles fd) mapJson settings.maxFileSize
        (jsObjKeys mapJson) ts hb k hk f hf with ⟨n, hn⟩
    rcases runTasks_error_of_bad ftb istext settings.allowedTypes ts
        (opsVariables opsJson) f ⟨n, hn⟩ hbad with ⟨e, he⟩
    constructor
    · intro engine
      simp [uploadProcess, uploadProcessTry, hm, ho, hb, he, isErrorResp]
    · intro e1 e2
      simp [uploadProcess, uploadProcessTry, hm, ho, hb, he]

/-- Witness for C10: the zero-size part is rejected with an error
response even though it is within the size ceiling and of an allowed
type. -/
theorem invalid_file_properties_reject_witness :
    isErrorResp (uploadProcess (fun _ => none) (fun _ => true) wZeroForm
      (fun _ v => .single v .undefined) wSettings) = true :=
  (invalid_file_properties_reject wZeroForm wSettings wMapJson wOpsJson "0"
      wFileZero (fun _ => none) (fun _ => true) rfl rfl (by simp [jsObjKeys, keysDedup, wMapJson])
      rfl (Or.inr (Or.inl rfl))).2.1
    (fun _ v => .single v .undefined)

/-- C6: for a valid envelope whose N mapped files all pass the property,
size and type checks, and whose derived variable names (last dot
segment of each field's first path string) are pairwise distinct,
binding produces exactly N resolved `Upload` handles: the engine is
invoked on a variables object in which every mapped key's derived name
holds a handle resolved to the descriptor `{fileName := part.name,
fileSize := part.size, mimeType := sniffed effective type,
encoding := "binary"}` (see `descOf`), and no other key holds a
handle. -/
theorem binder_binds_all_files (ftb : List Nat → Option String)
    (istext : List Nat → Bool) (fd : List (String × FormValue))
    (settings : Settings) (mapJson opsJson : Json)
    (vs0 : List (String × JSValue))
    (F : String → FormDataFile) (S : String → String)
    (hm : sanitizeAndValidateJSON (formGet fd "map") = .ok mapJson)
    (ho : sanitizeAndValidateJSON (formGet fd "operations") = .ok opsJson)
    (hvars : opsVariables opsJson = .obj vs0)
    (hgood : ∀ k ∈ jsObjKeys mapJson,
      stepWithin (extractFiles fd) mapJson settings.maxFileSize F S k
      ∧ (F k).name ≠ "" ∧ (F k).size ≠ 0 ∧ (F k).type ≠ ""
      ∧ settings.allowedTypes.contains
          (resolveMime (ftb (F k).content) (istext (F k).content) (F k).type)
          = true)
    (hnames : (((jsObjKeys mapJson).map (fun k => lastSegment (S k)))).Nodup) :
    ∃ fs2 : List (String × JSValue),
      (∀ engine : JSValue → JSValue → EngineBody,
        uploadProcess ftb istext fd engine settings
          = shapeResponse (engine (opsQuery opsJson) (cleanupVariables (.obj fs2))))
      ∧ (∀ k ∈ jsObjKeys mapJson,
          jsGetProp (cleanupVariables (.obj fs2)) (lastSegment (S k))
            = .upload (Upload.resolve Upload.new (descOf ftb istext (F k))))
      ∧ (∀ n, n ∉ (jsObjKeys mapJson).map (fun k => lastSegment (S k)) →
          ∀ u : Upload, jsGetProp (cleanupVariables (.obj fs2)) n ≠ .upload u) := by
  have hb := bindLoop_tasks_of_within (extractFiles fd) mapJson
    settings.maxFileSize F S (jsObjKeys mapJson) (fun k hk => (hgood k hk).1)
  have hsnd : ((jsObjKeys mapJson).map (fun k => (F k, lastSegment (S k)))).map Prod.snd
      = (jsObjKeys mapJson).map (fun k => lastSegment (S k)) := by
    simp [List.map_map, Function.comp]
  have hgoodts : ∀ t ∈ (jsObjKeys mapJson).map (fun k => (F k, lastSegment (S k))),
      goodTask ftb istext settings.allowedTypes t := by
    intro t ht
    rcases List.mem_map.mp ht with ⟨k, hk, hkt⟩
    rcases hgood k hk with ⟨_, h1, h2, h3, h4⟩
    rw [← hkt]
    exact ⟨h1, h2, h3, h4⟩
  have hnamesnd : (((jsObjKeys mapJson).map
      (fun k => (F k, lastSegment (S k)))).map Prod.snd).Nodup := by
    rw [hsnd]
    exact hnames
  rcases opsVariables_obj hvars with ⟨hnd0, hnoup⟩
  rcases runTasks_good ftb istext settings.allowedTypes
      ((jsObjKeys mapJson).map (fun k => (F k, lastSegment (S k)))) vs0
      hgoodts hnamesnd hnd0 with ⟨fs2, hrun, hnd2, huntouched, hbound⟩
  refine ⟨fs2, ?_, ?_, ?_⟩
  · intro engine
    simp [uploadProcess, uploadProcessTry, hm, ho, hb, hvars, hrun]
  · intro k hk
    have ht : (F k, lastSegment (S k))
        ∈ (jsObjKeys mapJson).map (fun k => (F k, lastSegment (S k))) :=
      List.mem_map.mpr ⟨k, hk, rfl⟩
    have hget := hbound (F k, lastSegment (S k)) ht
    have hmem : (lastSegment (S k),
        JSValue.upload (Upload.resolve Upload.new (descOf ftb istext (F k)))) ∈ fs2 :=
      alistGet_mem hget
    have hmemf : (lastSegment (S k),
        JSValue.upload (Upload.resolve Upload.new (descOf ftb istext (F k))))
        ∈ fs2.filter (fun p => jsTruthy p.2) :=
      List.mem_filter.mpr ⟨hmem, rfl⟩
    have hndf := filter_keys_nodup (fun p => jsTruthy p.2) hnd2
    have hgetf := mem_alistGet hndf hmemf
    simp [cleanupVariables, jsGetProp, JSValue.fields, hgetf]
  · intro n hn u hu
    have hn2 : n ∉ ((jsObjKeys mapJson).map
        (fun k => (F k, lastSegment (S k)))).map Prod.snd := by
      rw [hsnd]
      exact hn
    cases hopt : alistGet (fs2.filter (fun p => jsTruthy p.2)) n with
    | none => simp [cleanupVariables, jsGetProp, JSValue.fields, hopt] at hu
    | some v =>
      simp [cleanupVariables, jsGetProp, JSValue.fields, hopt] at hu
      have hv : (n, v) ∈ fs2.filter (fun p => jsTruthy p.2) := alistGet_mem hopt
      have hvfs2 : (n, v) ∈ fs2 := (List.mem_filter.mp hv).1
      have hget2 : alistGet fs2 n = some v := mem_alistGet hnd2 hvfs2
      rw [huntouched n hn2] at hget2
      have hvs0 : (n, v) ∈ vs0 := alistGet_mem hget2
      exact absurd hu (hnoup (n, v) hvs0 u)

/-- Witness for C6: the spec scenario — `map={"0":["variables.file"]}`,
a 50-byte text part declared `application/octet-stream`, policy
`allowedTypes=["text/plain"]`, `maxFileSize=1024` — binds `file` to a
handle resolved to `{fileName:"a.txt", fileSize:50,
mimeType:"text/plain", encoding:"binary"}` and invokes the engine. -/
theorem binder_binds_all_files_witness :
    ∃ fs2 : List (String × JSValue),
      (∀ engine : JSValue → JSValue → EngineBody,
        uploadProcess (fun _ => none) (fun _ => true) wFullForm engine wSettings
          = shapeResponse (engine (opsQuery wOpsJson)
              (cleanupVariables (.obj fs2))))
      ∧ (∀ k ∈ jsObjKeys wMapJson,
          jsGetProp (cleanupVariables (.obj fs2)) (lastSegment "variables.file")
            = .upload (Upload.resolve Upload.new
                (descOf (fun _ => none) (fun _ => true) wFile50)))
      ∧ (∀ n, n ∉ (jsObjKeys wMapJson).map (fun _ => lastSegment "variables.file") →
          ∀ u : Upload,
            jsGetProp (cleanupVariables (.obj fs2)) n ≠ .upload u) :=
  binder_binds_all_files (fun _ => none) (fun _ => true) wFullForm wSettings
    wMapJson wOpsJson [("file", .json .null)] (fun _ => wFile50)
    (fun _ => "variables.file") rfl rfl rfl
    (by
      intro k hk
      have hk0 : k = "0" := by
        simpa [jsObjKeys, keysDedup, wMapJson] using hk
      subst hk0
      refine ⟨⟨rfl, rfl, by norm_num [wSettings, wFile50]⟩, ?_, ?_, ?_, rfl⟩
      · simp [wFile50]
      · norm_num [wFile50]
      · simp [wFile50])
    (by decide)
